import Mathlib

set_option maxRecDepth 1000000

/-!
Verification development for the scottdb read-path core
(`src/table/cache.rs` and `src/lib.rs`).

Byte buffers are embedded as `List Nat` (every element a byte value),
u32/u64 arithmetic as `Nat` with explicit `% 2^32` where the Rust code
wraps, Rust `Result` as `Except`, and Rust panics (out-of-range slicing,
failed assertions) as `Option` with `none` marking the panic.

Modules of the repository that are referenced by `cache.rs` but whose
source is not part of `src/` (`tablefmt`, `encode`, `error`,
`partition::InternalKey`) are modelled from the specification and marked
as such in their doc comments.
-/

/-- Modelled from the spec: header is four u32 fields (`catalog_size`,
`data_size`, `catalog_crc32`, `data_crc32`), 16 bytes; the `tablefmt`
module itself is not part of `src/`. -/
def TABLE_HEAD_SIZE : Nat := 16

/-- Modelled from the spec: the trailer is a fixed magic marker; the spec
does not pin its byte values, so a concrete four-byte marker is chosen
(no claim depends on the marker's content, only on equality with it). -/
def TABLE_MAGIC : List Nat := [115, 99, 116, 98]

/-- Modelled from the spec: size of the fixed trailer magic. -/
def TABLE_MAGIC_SIZE : Nat := TABLE_MAGIC.length

/-- Modelled from the spec: minimum viable table size; the layout is
`header + catalog + data + trailer` with nothing else, and the size
consistency check `catalog + data + TABLE_MIN_SIZE = total` in
`from_raw` shows the minimum is exactly header plus trailer. -/
def TABLE_MIN_SIZE : Nat := TABLE_HEAD_SIZE + TABLE_MAGIC_SIZE

/-- Modelled from the spec: maximum sane table size, an engine-configured
constant; the concrete value is not pinned by the spec and no claim
depends on it. -/
def TABLE_MAX_SIZE : Nat := 33554432

/-- Modelled from the spec: a catalog entry's fixed-width binary encoding
is 24 bytes (`seq:8, key_off:4, key_len:4, value_off:4, value_len:4`). -/
def TABLE_CATALOG_ITEM_SIZE : Nat := 24

/-- Modelled from the spec: the high bit of the u32 `value_offset` is the
tombstone flag. -/
def TABLE_DELETION_BITMASK : Nat := 2147483648

/-- Modelled from the spec (`encode` module not in `src/`): fixed-width
4-byte encoding of a u32, least significant byte first. -/
def encode_fixed32_ret (x : Nat) : List Nat :=
  [x % 256, x / 256 % 256, x / 65536 % 256, x / 16777216 % 256]

/-- Modelled from the spec (`encode` module not in `src/`): fixed-width
8-byte encoding of a u64, least significant byte first. -/
def encode_fixed64_ret (x : Nat) : List Nat :=
  [x % 256, x / 256 % 256, x / 65536 % 256, x / 16777216 % 256,
   x / 4294967296 % 256, x / 1099511627776 % 256,
   x / 281474976710656 % 256, x / 72057594037927936 % 256]

/-- Modelled from the spec (`encode` module not in `src/`): decode a u32
from the first four bytes of a slice (bytes are masked to u8 range,
mirroring the `u8` element type of the Rust slice). -/
def decode_fixed32 (bs : List Nat) : Nat :=
  bs.getD 0 0 % 256 + bs.getD 1 0 % 256 * 256 +
  bs.getD 2 0 % 256 * 65536 + bs.getD 3 0 % 256 * 16777216

/-- Modelled from the spec (`encode` module not in `src/`): decode a u64
from the first eight bytes of a slice. -/
def decode_fixed64 (bs : List Nat) : Nat :=
  bs.getD 0 0 % 256 + bs.getD 1 0 % 256 * 256 +
  bs.getD 2 0 % 256 * 65536 + bs.getD 3 0 % 256 * 16777216 +
  bs.getD 4 0 % 256 * 4294967296 + bs.getD 5 0 % 256 * 1099511627776 +
  bs.getD 6 0 % 256 * 281474976710656 + bs.getD 7 0 % 256 * 72057594037927936

/-- One bit-level round of the reflected IEEE CRC32 (polynomial
0xEDB88320), as computed by the external `crc` crate's
`crc32::checksum_ieee` used by `from_raw`. -/
def crcStepBit (c : Nat) : Nat := if c % 2 = 1 then (c / 2) ^^^ 3988292384 else c / 2

/-- Iterate `crcStepBit` a given number of times (eight per input byte). -/
def crcRounds : Nat → Nat → Nat
  | 0, c => c
  | Nat.succ n, c => crcRounds n (crcStepBit c)

/-- The 256-entry lookup table of the reflected IEEE CRC32: entry `i` is
eight bit-level rounds applied to `i` (see `crcTable_spec` below). -/
def crcTable : List Nat :=
  [0, 1996959894, 3993919788, 2567524794, 124634137, 1886057615, 3915621685, 2657392035,
   249268274, 2044508324, 3772115230, 2547177864, 162941995, 2125561021, 3887607047, 2428444049,
   498536548, 1789927666, 4089016648, 2227061214, 450548861, 1843258603, 4107580753, 2211677639,
   325883990, 1684777152, 4251122042, 2321926636, 335633487, 1661365465, 4195302755, 2366115317,
   997073096, 1281953886, 3579855332, 2724688242, 1006888145, 1258607687, 3524101629, 2768942443,
   901097722, 1119000684, 3686517206, 2898065728, 853044451, 1172266101, 3705015759, 2882616665,
   651767980, 1373503546, 3369554304, 3218104598, 565507253, 1454621731, 3485111705, 3099436303,
   671266974, 1594198024, 3322730930, 2970347812, 795835527, 1483230225, 3244367275, 3060149565,
   1994146192, 31158534, 2563907772, 4023717930, 1907459465, 112637215, 2680153253, 3904427059,
   2013776290, 251722036, 2517215374, 3775830040, 2137656763, 141376813, 2439277719, 3865271297,
   1802195444, 476864866, 2238001368, 4066508878, 1812370925, 453092731, 2181625025, 4111451223,
   1706088902, 314042704, 2344532202, 4240017532, 1658658271, 366619977, 2362670323, 4224994405,
   1303535960, 984961486, 2747007092, 3569037538, 1256170817, 1037604311, 2765210733, 3554079995,
   1131014506, 879679996, 2909243462, 3663771856, 1141124467, 855842277, 2852801631, 3708648649,
   1342533948, 654459306, 3188396048, 3373015174, 1466479909, 544179635, 3110523913, 3462522015,
   1591671054, 702138776, 2966460450, 3352799412, 1504918807, 783551873, 3082640443, 3233442989,
   3988292384, 2596254646, 62317068, 1957810842, 3939845945, 2647816111, 81470997, 1943803523,
   3814918930, 2489596804, 225274430, 2053790376, 3826175755, 2466906013, 167816743, 2097651377,
   4027552580, 2265490386, 503444072, 1762050814, 4150417245, 2154129355, 426522225, 1852507879,
   4275313526, 2312317920, 282753626, 1742555852, 4189708143, 2394877945, 397917763, 1622183637,
   3604390888, 2714866558, 953729732, 1340076626, 3518719985, 2797360999, 1068828381, 1219638859,
   3624741850, 2936675148, 906185462, 1090812512, 3747672003, 2825379669, 829329135, 1181335161,
   3412177804, 3160834842, 628085408, 1382605366, 3423369109, 3138078467, 570562233, 1426400815,
   3317316542, 2998733608, 733239954, 1555261956, 3268935591, 3050360625, 752459403, 1541320221,
   2607071920, 3965973030, 1969922972, 40735498, 2617837225, 3943577151, 1913087877, 83908371,
   2512341634, 3803740692, 2075208622, 213261112, 2463272603, 3855990285, 2094854071, 198958881,
   2262029012, 4057260610, 1759359992, 534414190, 2176718541, 4139329115, 1873836001, 414664567,
   2282248934, 4279200368, 1711684554, 285281116, 2405801727, 4167216745, 1634467795, 376229701,
   2685067896, 3608007406, 1308918612, 956543938, 2808555105, 3495958263, 1231636301, 1047427035,
   2932959818, 3654703836, 1088359270, 936918000, 2847714899, 3736837829, 1202900863, 817233897,
   3183342108, 3401237130, 1404277552, 615818150, 3134207493, 3453421203, 1423857449, 601450431,
   3009837614, 3294710456, 1567103746, 711928724, 3020668471, 3272380065, 1510334235, 755167117]

/-- Fold one input byte into the running CRC32 state (table-driven form
of the eight bit-level rounds: shallow enough for kernel evaluation). -/
def crcUpdate (c b : Nat) : Nat := (c / 256) ^^^ crcTable.getD ((c ^^^ b % 256) % 256) 0

/-- CRC32 (IEEE, reflected) of a byte buffer, as `crc32::checksum_ieee`. -/
def checksum_ieee (data : List Nat) : Nat :=
  (List.foldl crcUpdate 4294967295 data) ^^^ 4294967295

/-- Modelled from the spec (`error` module not in `src/`): a corruption
error carrying a human-readable reason, as produced by
`Error::sc_table_corrupt`. -/
inductive Error where
  | scTableCorrupt (reason : String)
deriving DecidableEq

/-- The catalog entry structure `ScTableCatalogItem` of `cache.rs`:
`key_seq: u64`, `key_off/key_len/value_off/value_len: u32`. -/
structure ScTableCatalogItem where
  key_seq : Nat
  key_off : Nat
  key_len : Nat
  value_off : Nat
  value_len : Nat
deriving DecidableEq, Inhabited

/-- `ScTableCatalogItem::serialize`: append the 24-byte fixed encoding
(seq, key_off, key_len, value_off, value_len) to the destination; the
appended bytes are returned. -/
def ScTableCatalogItem.serialize (it : ScTableCatalogItem) : List Nat :=
  encode_fixed64_ret it.key_seq ++ encode_fixed32_ret it.key_off ++
  encode_fixed32_ret it.key_len ++ encode_fixed32_ret it.value_off ++
  encode_fixed32_ret it.value_len

/-- `ScTableCatalogItem::deserialize`: decode the five fields from the
byte ranges `[0..8)`, `[8..12)`, `[12..16)`, `[16..20)`, `[20..24)` of a
24-byte slice. -/
def ScTableCatalogItem.deserialize (bs : List Nat) : ScTableCatalogItem :=
  { key_seq := decode_fixed64 (bs.take 8)
    key_off := decode_fixed32 ((bs.drop 8).take 4)
    key_len := decode_fixed32 ((bs.drop 12).take 4)
    value_off := decode_fixed32 ((bs.drop 16).take 4)
    value_len := decode_fixed32 ((bs.drop 20).take 4) }

/-- The Rust u32 bit test `value_off & TABLE_DELETION_BITMASK != 0`
(the mask is the single bit 2^31, so the test reads that bit). -/
def deletionBitSet (v : Nat) : Bool := v / TABLE_DELETION_BITMASK % 2 == 1

/-- The parsed in-memory table `ScTableCache`: decoded catalog plus an
owned copy of the data segment. (The `quota` field carries no data; the
permit lifecycle is modelled separately by the manager state machine.) -/
structure ScTableCache where
  catalog : List ScTableCatalogItem
  data : List Nat
deriving DecidableEq, Inhabited

/-- The catalog segment `raw[TABLE_HEAD_SIZE .. TABLE_HEAD_SIZE + catalog_size]`
read by `from_raw` (sizes taken from the header). -/
def catalogSeg (raw : List Nat) : List Nat :=
  (raw.drop TABLE_HEAD_SIZE).take (decode_fixed32 (raw.take 4))

/-- The data segment following the catalog segment, of the header-declared
data size. -/
def dataSeg (raw : List Nat) : List Nat :=
  (raw.drop (TABLE_HEAD_SIZE + decode_fixed32 (raw.take 4))).take
    (decode_fixed32 ((raw.drop 4).take 4))

/-- The per-entry loop of `from_raw`: deserialize `count` entries starting
at byte offset `base` of the catalog segment; a tombstone entry skips
range validation; a non-tombstone entry whose key or value range end
(computed with the u32 wrapping addition `off + len` of the source's
release-mode semantics) exceeds the data length fails the whole loop. -/
def decodeCatalogAux (kv : List Nat) (dataLen : Nat) : Nat → Nat → Option (List ScTableCatalogItem)
  | _, 0 => some []
  | base, Nat.succ count =>
    let item := ScTableCatalogItem.deserialize ((kv.drop base).take TABLE_CATALOG_ITEM_SIZE)
    if deletionBitSet item.value_off then
      Option.map (fun rest => item :: rest)
        (decodeCatalogAux kv dataLen (base + TABLE_CATALOG_ITEM_SIZE) count)
    else if (item.key_off + item.key_len) % 4294967296 > dataLen ∨
            (item.value_off + item.value_len) % 4294967296 > dataLen then
      none
    else
      Option.map (fun rest => item :: rest)
        (decodeCatalogAux kv dataLen (base + TABLE_CATALOG_ITEM_SIZE) count)

/-- `ScTableCache::from_raw`: the validation pipeline of `cache.rs` —
length bounds, trailer magic, catalog alignment, size consistency,
catalog CRC, data CRC, then the per-entry range loop; each failure
returns the corresponding corruption error of the source. -/
def ScTableCache.from_raw (raw : List Nat) : Except Error ScTableCache :=
  if raw.length < TABLE_MIN_SIZE then
    Except.error (Error.scTableCorrupt "too small to be a table file")
  else if raw.length > TABLE_MAX_SIZE then
    Except.error (Error.scTableCorrupt "too large to be a table file")
  else if raw.drop (raw.length - TABLE_MAGIC_SIZE) ≠ TABLE_MAGIC then
    Except.error (Error.scTableCorrupt "incorrect table magic")
  else if decode_fixed32 (raw.take 4) % TABLE_CATALOG_ITEM_SIZE ≠ 0 then
    Except.error (Error.scTableCorrupt "catalog size should be multiplication of 16")
  else if decode_fixed32 (raw.take 4) + decode_fixed32 ((raw.drop 4).take 4) + TABLE_MIN_SIZE ≠ raw.length then
    Except.error (Error.scTableCorrupt "incorrect table size")
  else if checksum_ieee (catalogSeg raw) ≠ decode_fixed32 ((raw.drop 8).take 4) then
    Except.error (Error.scTableCorrupt "incorrect kv_catalog crc")
  else if checksum_ieee (dataSeg raw) ≠ decode_fixed32 ((raw.drop 12).take 4) then
    Except.error (Error.scTableCorrupt "incorrect data crc")
  else
    match decodeCatalogAux (catalogSeg raw) (dataSeg raw).length 0
        (decode_fixed32 (raw.take 4) / TABLE_CATALOG_ITEM_SIZE) with
    | none => Except.error (Error.scTableCorrupt "incorrect key/value catalog data")
    | some catalog => Except.ok (ScTableCache.mk catalog (dataSeg raw))

/-- Rust slice indexing `&data[a .. b]`: defined (`some`) exactly when
`a ≤ b ≤ data.len()`, otherwise a panic (`none`). -/
def sliceOpt (xs : List Nat) (a b : Nat) : Option (List Nat) :=
  if a ≤ b ∧ b ≤ xs.length then some ((xs.drop a).take (b - a)) else none

/-- `ScTableCache::key`: `&data[key_off .. key_off + key_len]`, the end
computed with the source's u32 (wrapping) addition. -/
def ScTableCache.key (c : ScTableCache) (it : ScTableCatalogItem) : Option (List Nat) :=
  sliceOpt c.data it.key_off ((it.key_off + it.key_len) % 4294967296)

/-- `ScTableCache::value`: `&data[value_off .. value_off + value_len]`,
the end computed with the source's u32 (wrapping) addition. -/
def ScTableCache.value (c : ScTableCache) (it : ScTableCatalogItem) : Option (List Nat) :=
  sliceOpt c.data it.value_off ((it.value_off + it.value_len) % 4294967296)

/-- `ScTableCache::catalog_size`. -/
def ScTableCache.catalog_size (c : ScTableCache) : Nat := c.catalog.length

/-- `ScTableCache::nth_item`: assert the index is in range, then return
`(key_seq, key_bytes, value_bytes)` of the n-th entry by direct indexing;
`none` models a panic (failed assertion or out-of-range slice). -/
def ScTableCache.nth_item (c : ScTableCache) (n : Nat) : Option (Nat × List Nat × List Nat) :=
  if n < c.catalog_size then
    match c.key (c.catalog.getD n default), c.value (c.catalog.getD n default) with
    | some k, some v => some ((c.catalog.getD n default).key_seq, k, v)
    | _, _ => none
  else none

/-- Nat comparison returning an `Ordering`, as Rust's `u64::cmp`. -/
def natCompare (a b : Nat) : Ordering :=
  if a < b then Ordering.lt else if a = b then Ordering.eq else Ordering.gt

/-- `DefaultComparator::compare` of `lib.rs`: `lhs.cmp(rhs)` on byte
slices, lexicographic with a shorter strict prefix ordered first. -/
def DefaultComparator.compare : List Nat → List Nat → Ordering
  | [], [] => Ordering.eq
  | [], _ :: _ => Ordering.lt
  | _ :: _, [] => Ordering.gt
  | a :: l1, b :: l2 =>
    match natCompare a b with
    | Ordering.eq => DefaultComparator.compare l1 l2
    | o => o

/-- Modelled from the spec (`partition` module not in `src/`): the
composite lookup key, a sequence number plus user key bytes;
`InternalKey::new(seq, user_key)`. -/
structure InternalKey where
  seq : Nat
  userKey : List Nat
deriving DecidableEq, Inhabited

/-- Modelled from the spec (`partition` module not in `src/`): the total
order on composite keys — user key primary via the configured comparator,
sequence number descending for ties (a higher sequence sorts first). -/
def internalKeyCmp (comp : List Nat → List Nat → Ordering) (a b : InternalKey) : Ordering :=
  match comp a.userKey b.userKey with
  | Ordering.eq => natCompare b.seq a.seq
  | o => o

/-- Rust's `slice::binary_search_by` loop: probe `mid = left + size/2`;
a `Less` closure result moves `left` past `mid`, `Greater` moves `right`
to `mid`, `Equal` returns `Ok(mid)`; when the window empties the result
is `Err(left)`. The closure may panic (`none`), which aborts the search;
the fuel argument strictly exceeds the iteration count at the call site,
so the fuel-exhausted `none` is unreachable. -/
def bsGoP (f : ScTableCatalogItem → Option Ordering) (xs : List ScTableCatalogItem) :
    Nat → Nat → Nat → Option (Except Nat Nat)
  | 0, _, _ => none
  | Nat.succ fuel, left, right =>
    if left < right then
      match f (xs.getD (left + (right - left) / 2) default) with
      | none => none
      | some Ordering.lt => bsGoP f xs fuel (left + (right - left) / 2 + 1) right
      | some Ordering.gt => bsGoP f xs fuel left (left + (right - left) / 2)
      | some Ordering.eq => some (Except.ok (left + (right - left) / 2))
    else some (Except.error left)

/-- The binary search performed by `ScTableCache::get`: the closure builds
a lookup key from the probed catalog entry (reading its key bytes from the
data segment) and returns `key.cmp(&lookup_key)` — the search target
compared against the probed element, exactly as the source writes it. -/
def getSearch (comp : List Nat → List Nat → Ordering) (c : ScTableCache)
    (key : InternalKey) : Option (Except Nat Nat) :=
  bsGoP
    (fun it => Option.map
      (fun uk => internalKeyCmp comp key (InternalKey.mk it.key_seq uk))
      (c.key it))
    c.catalog (c.catalog.length + 1) 0 c.catalog.length

/-- `ScTableCache::get`: binary search over the catalog; on `Ok(idx)`,
return "not found" if the matched entry's tombstone bit is set, otherwise
a copy of its value bytes; on `Err` return "not found". The outer `none`
models a panic inside the search closure or the value slicing. -/
def ScTableCache.get (comp : List Nat → List Nat → Ordering) (c : ScTableCache)
    (key : InternalKey) : Option (Option (List Nat)) :=
  match getSearch comp c key with
  | none => none
  | some (Except.error _) => some none
  | some (Except.ok idx) =>
    if deletionBitSet (c.catalog.getD idx default).value_off then some none
    else Option.map some (c.value (c.catalog.getD idx default))

/-- The composite key denoted by a catalog entry: its sequence number plus
its key bytes read from the data segment (`none` when the key range does
not lie inside the data segment). -/
def entryKeyOpt (c : ScTableCache) (it : ScTableCatalogItem) : Option InternalKey :=
  Option.map (fun uk => InternalKey.mk it.key_seq uk) (c.key it)

/-- The catalog is sorted strictly ascending per the composite order
(user key ascending, sequence descending), every entry's key bytes being
readable from the data segment. -/
def catalogSortedAux (comp : List Nat → List Nat → Ordering) (c : ScTableCache) :
    List ScTableCatalogItem → Bool
  | [] => true
  | [it] => (entryKeyOpt c it).isSome
  | x :: y :: rest =>
    (match entryKeyOpt c x, entryKeyOpt c y with
     | some kx, some ky => internalKeyCmp comp kx ky == Ordering.lt
     | _, _ => false) && catalogSortedAux comp c (y :: rest)

/-- Sortedness of a parsed table's whole catalog. -/
def catalogSorted (comp : List Nat → List Nat → Ordering) (c : ScTableCache) : Bool :=
  catalogSortedAux comp c c.catalog

/-- Assemble a raw table file exactly per the on-disk format: header
(catalog size, data size, catalog CRC32, data CRC32), catalog segment,
data segment, trailer magic. -/
def mkTable (catalog data : List Nat) : List Nat :=
  encode_fixed32_ret catalog.length ++ encode_fixed32_ret data.length ++
  encode_fixed32_ret (checksum_ieee catalog) ++ encode_fixed32_ret (checksum_ieee data) ++
  catalog ++ data ++ TABLE_MAGIC

/-- State of the counting semaphore inside `TableCacheManager` (the
external `std_semaphore::Semaphore`, modelled from its documented
semantics): `avail` free slots, `waiting` blocked acquirers, `held`
outstanding permits. -/
structure SemState where
  avail : Nat
  waiting : Nat
  held : Nat
deriving DecidableEq, Inhabited

/-- `Semaphore::acquire` as called by `acquire_quota`: take a free slot
when one exists, otherwise block (join the waiting callers). -/
def semAcquire (s : SemState) : SemState :=
  if 0 < s.avail then SemState.mk (s.avail - 1) s.waiting (s.held + 1)
  else SemState.mk s.avail (s.waiting + 1) s.held

/-- `Semaphore::release` as called by `on_cache_released` when a
`CacheQuota` drops: the released slot is handed to exactly one waiting
caller when one exists, otherwise it becomes available. -/
def semRelease (s : SemState) : SemState :=
  if 0 < s.waiting then SemState.mk s.avail (s.waiting - 1) s.held
  else SemState.mk (s.avail + 1) s.waiting (s.held - 1)

/-- Events against the semaphore: an `acquire_quota` call, or the drop of
one `CacheQuota` (a release, a no-op when no permit is outstanding —
each quota drops exactly once). -/
inductive SemEvent where
  | acq
  | rel
deriving DecidableEq

/-- One semaphore event. -/
def semStep (s : SemState) : SemEvent → SemState
  | SemEvent.acq => semAcquire s
  | SemEvent.rel => if 0 < s.held then semRelease s else s

/-- Run a sequence of semaphore events from the freshly constructed
manager's state (`Semaphore::new(cache_count)`): all slots free. -/
def semRun (n : Nat) (evs : List SemEvent) : SemState :=
  List.foldl semStep (SemState.mk n 0 0) evs

/-- Lookup in the LRU map model (a `(table_file, cache)` association list
kept most-recently-used first), as the external `lru::LruCache` keyed
lookup. Table identities (`ScTableFile`) and shared cache handles
(`Arc<ScTableCache>`) are opaque to the manager and modelled as `Nat`
identifiers. -/
def lruLookup (m : List (Nat × Nat)) (k : Nat) : Option Nat :=
  Option.map Prod.snd (List.find? (fun p => p.1 == k) m)

/-- Remove every binding of a key from the LRU list. -/
def lruRemove (m : List (Nat × Nat)) (k : Nat) : List (Nat × Nat) :=
  List.filter (fun p => p.1 != k) m

/-- `LruCache::put` (external `lru` crate, modelled from its documented
semantics): an existing key is rebound and promoted to most-recent,
returning the replaced value; a new key at capacity first evicts the
least-recently-used (last) entry; the second component is the cache
handle the map dropped, if any. -/
def lruPut (cap : Nat) (m : List (Nat × Nat)) (k v : Nat) : List (Nat × Nat) × Option Nat :=
  match lruLookup m k with
  | some old => ((k, v) :: lruRemove m k, some old)
  | none =>
    if cap ≤ m.length then ((k, v) :: m.dropLast, Option.map Prod.snd m.getLast?)
    else ((k, v) :: m, none)

/-- Reference count of a cache handle (the strong count of its
`Arc<ScTableCache>`), zero when unknown. -/
def refsGet (rs : List (Nat × Nat)) (c : Nat) : Nat :=
  (Option.map Prod.snd (List.find? (fun p => p.1 == c) rs)).getD 0

/-- Rebind a cache handle's reference count. -/
def refsSet (rs : List (Nat × Nat)) (c n : Nat) : List (Nat × Nat) :=
  (c, n) :: List.filter (fun p => p.1 != c) rs

/-- The full `TableCacheManager` state: LRU capacity (`cache_count`), the
LRU map, the `Arc` strong counts of live parsed tables, and the admission
semaphore. -/
structure MgrState where
  cap : Nat
  lru : List (Nat × Nat)
  refs : List (Nat × Nat)
  sem : SemState
deriving DecidableEq, Inhabited

/-- The freshly constructed manager `TableCacheManager::new(n)`: empty
LRU of capacity `n` and a semaphore with `n` free slots. -/
def mgrInit (n : Nat) : MgrState :=
  MgrState.mk n [] [] (SemState.mk n 0 0)

/-- Drop one shared handle to a parsed table (`Arc` clone dropped).
When it was the last one, the `ScTableCache` drops, its owned
`CacheQuota` drops, and `on_cache_released` releases the semaphore. -/
def dropRef (s : MgrState) (c : Nat) : MgrState :=
  match refsGet s.refs c with
  | 0 => s
  | 1 => MgrState.mk s.cap s.lru (refsSet s.refs c 0)
      (if 0 < s.sem.held then semRelease s.sem else s.sem)
  | Nat.succ (Nat.succ n) => MgrState.mk s.cap s.lru (refsSet s.refs c (Nat.succ n)) s.sem

/-- `TableCacheManager::acquire_quota`: acquire the semaphore. -/
def acquireQuota (s : MgrState) : MgrState :=
  MgrState.mk s.cap s.lru s.refs (semAcquire s.sem)

/-- `TableCacheManager::add_cache`: wrap the parsed table in an `Arc`
(strong count 2: the map's clone plus the returned handle) and `put` it;
the handle the map dropped — the replaced value for an existing key, or
the evicted least-recently-used entry at capacity — loses one reference. -/
def addCache (s : MgrState) (f c : Nat) : MgrState :=
  match lruPut s.cap s.lru f c with
  | (m, none) => MgrState.mk s.cap m (refsSet s.refs c 2) s.sem
  | (m, some old) => dropRef (MgrState.mk s.cap m (refsSet s.refs c 2) s.sem) old

/-- `TableCacheManager::get_cache`: on a hit, promote the entry to
most-recently-used and return a fresh clone of its handle (one more
reference); on a miss return `none` and leave the state unchanged. -/
def getCache (s : MgrState) (f : Nat) : Option Nat × MgrState :=
  match lruLookup s.lru f with
  | some c => (some c,
      MgrState.mk s.cap ((f, c) :: lruRemove s.lru f)
        (refsSet s.refs c (refsGet s.refs c + 1)) s.sem)
  | none => (none, s)

/-- Events against the cache manager. -/
inductive MgrEvent where
  | acquire
  | add (f c : Nat)
  | getc (f : Nat)
  | dropH (c : Nat)
deriving DecidableEq

/-- One manager event. -/
def mgrStep (s : MgrState) : MgrEvent → MgrState
  | MgrEvent.acquire => acquireQuota s
  | MgrEvent.add f c => addCache s f c
  | MgrEvent.getc f => (getCache s f).2
  | MgrEvent.dropH c => dropRef s c

/-- Run a sequence of manager events from the freshly constructed
manager. -/
def mgrRun (n : Nat) (evs : List MgrEvent) : MgrState :=
  List.foldl mgrStep (mgrInit n) evs

/-- Ownership lifecycle of the quota passed by value into `from_raw`,
embedded from Rust move/drop semantics: on every error return the
`CacheQuota` argument is dropped (releasing its admission slot via
`on_cache_released`); on success it moves into the returned table and
stays held. The semaphore state threads the effect. -/
def parseWithQuota (raw : List Nat) (s : SemState) : SemState × Except Error ScTableCache :=
  match ScTableCache.from_raw raw with
  | Except.error e => ((if 0 < s.held then semRelease s else s), Except.error e)
  | Except.ok t => (s, Except.ok t)

/-- The catalog entry encoded at byte offset `off` of a catalog segment. -/
def entryAt (kv : List Nat) (off : Nat) : ScTableCatalogItem :=
  ScTableCatalogItem.deserialize ((kv.drop off).take TABLE_CATALOG_ITEM_SIZE)

/-- Corruption case: truncated file (below minimum size). -/
def corruptTooSmall (raw : List Nat) : Prop := raw.length < TABLE_MIN_SIZE

/-- Corruption case: oversized file. -/
def corruptTooLarge (raw : List Nat) : Prop := raw.length > TABLE_MAX_SIZE

/-- Corruption case: wrong trailer magic. -/
def corruptBadMagic (raw : List Nat) : Prop :=
  raw.drop (raw.length - TABLE_MAGIC_SIZE) ≠ TABLE_MAGIC

/-- Corruption case: catalog size not a multiple of the entry width. -/
def corruptMisaligned (raw : List Nat) : Prop :=
  decode_fixed32 (raw.take 4) % TABLE_CATALOG_ITEM_SIZE ≠ 0

/-- Corruption case: header size fields inconsistent with the buffer
length. -/
def corruptBadSize (raw : List Nat) : Prop :=
  decode_fixed32 (raw.take 4) + decode_fixed32 ((raw.drop 4).take 4) + TABLE_MIN_SIZE ≠ raw.length

/-- Corruption case: catalog segment CRC mismatch. -/
def corruptCatalogCrc (raw : List Nat) : Prop :=
  checksum_ieee (catalogSeg raw) ≠ decode_fixed32 ((raw.drop 8).take 4)

/-- Corruption case: data segment CRC mismatch. -/
def corruptDataCrc (raw : List Nat) : Prop :=
  checksum_ieee (dataSeg raw) ≠ decode_fixed32 ((raw.drop 12).take 4)

/-- A non-tombstone entry at byte offset `off` whose key or value range
end — computed, as the code computes it, with wrapping u32 addition —
exceeds the data segment length. -/
def badEntryAt (kv : List Nat) (off dlen : Nat) : Prop :=
  deletionBitSet (entryAt kv off).value_off = false ∧
  (((entryAt kv off).key_off + (entryAt kv off).key_len) % 4294967296 > dlen ∨
   ((entryAt kv off).value_off + (entryAt kv off).value_len) % 4294967296 > dlen)

/-- Corruption case: some catalog entry fails the (wrapping-arithmetic)
range check of the per-entry loop. -/
def corruptBadEntryWrapped (raw : List Nat) : Prop :=
  ∃ i, i < decode_fixed32 (raw.take 4) / TABLE_CATALOG_ITEM_SIZE ∧
    badEntryAt (catalogSeg raw) (TABLE_CATALOG_ITEM_SIZE * i) (dataSeg raw).length

/-- A header-plus-trailer-sized buffer of zero bytes: well-sized but with
a wrong trailer magic. -/
def RAW_BADMAGIC : List Nat := List.replicate TABLE_MIN_SIZE 0

/-- A non-tombstone entry whose exact key range end `4294967294 + 3`
overflows u32 and wraps to 1. -/
def wrapKeyItem : ScTableCatalogItem := ScTableCatalogItem.mk 1 4294967294 3 0 1

/-- A raw table holding only `wrapKeyItem` over a one-byte data segment. -/
def RAW_WRAPKEY : List Nat := mkTable wrapKeyItem.serialize [9]

/-- The parsed form of `RAW_WRAPKEY`. -/
def wrapKeyCache : ScTableCache := ScTableCache.mk [wrapKeyItem] [9]

/-- A non-tombstone entry whose exact value range end `4294967295 + 2`
overflows u32 and wraps to 1 (the tombstone bit of `4294967295` is set —
so use an offset just below the bit instead). -/
def wrapValueItem : ScTableCatalogItem := ScTableCatalogItem.mk 1 0 1 2147483647 2147483650

/-- A raw table holding only `wrapValueItem` over a one-byte data
segment. -/
def RAW_WRAPVALUE : List Nat := mkTable wrapValueItem.serialize [42]

/-- The parsed form of `RAW_WRAPVALUE`. -/
def wrapValueCache : ScTableCache := ScTableCache.mk [wrapValueItem] [42]

/-- A tombstone entry (bit 31 of `value_off` set) over an empty data
segment. -/
def tombItem : ScTableCatalogItem := ScTableCatalogItem.mk 5 0 0 2147483648 0

/-- A raw table holding only the tombstone entry. -/
def RAW_TOMBONLY : List Nat := mkTable tombItem.serialize []

/-- The parsed form of `RAW_TOMBONLY`. -/
def tombOnlyCache : ScTableCache := ScTableCache.mk [tombItem] []

/-- An ordinary valid entry: key `[10]`, value `[20]`. -/
def goodItem : ScTableCatalogItem := ScTableCatalogItem.mk 3 0 1 1 1

/-- A raw table holding only `goodItem`. -/
def RAW_GOOD : List Nat := mkTable goodItem.serialize [10, 20]

/-- The parsed form of `RAW_GOOD`. -/
def goodCache : ScTableCache := ScTableCache.mk [goodItem] [10, 20]

/-- Two sorted entries: `(K1=[1], seq 10, "a")`, `(K2=[2], seq 7, "b")`. -/
def RAW_PAIR : List Nat :=
  mkTable (ScTableCatalogItem.serialize (ScTableCatalogItem.mk 10 0 1 1 1) ++
           ScTableCatalogItem.serialize (ScTableCatalogItem.mk 7 2 1 3 1)) [1, 97, 2, 98]

/-- The parsed form of `RAW_PAIR`. -/
def pairCache : ScTableCache :=
  ScTableCache.mk [ScTableCatalogItem.mk 10 0 1 1 1, ScTableCatalogItem.mk 7 2 1 3 1] [1, 97, 2, 98]

/-- The spec's three-entry example `[(K1, seq 10, "a"), (K2, seq 7, "b"),
(K2, seq 3, "c")]` with `K1 = [1]`, `K2 = [2]`. -/
def RAW_TRIPLE : List Nat :=
  mkTable (ScTableCatalogItem.serialize (ScTableCatalogItem.mk 10 0 1 1 1) ++
           ScTableCatalogItem.serialize (ScTableCatalogItem.mk 7 2 1 3 1) ++
           ScTableCatalogItem.serialize (ScTableCatalogItem.mk 3 4 1 5 1)) [1, 97, 2, 98, 2, 99]

/-- The parsed form of `RAW_TRIPLE`. -/
def tripleCache : ScTableCache :=
  ScTableCache.mk
    [ScTableCatalogItem.mk 10 0 1 1 1, ScTableCatalogItem.mk 7 2 1 3 1,
     ScTableCatalogItem.mk 3 4 1 5 1] [1, 97, 2, 98, 2, 99]

/-- A tombstone for key `K = [7]` at sequence 5 whose value pointer
(low bits offset 1, length 5) is not a valid range of the one-byte data
segment. -/
def tombMatchItem : ScTableCatalogItem := ScTableCatalogItem.mk 5 0 1 2147483649 5

/-- A raw table holding only `tombMatchItem` over data `[7]`. -/
def RAW_TOMBMATCH : List Nat := mkTable tombMatchItem.serialize [7]

/-- The parsed form of `RAW_TOMBMATCH`. -/
def tombMatchCache : ScTableCache := ScTableCache.mk [tombMatchItem] [7]

/-- The spec's tombstone example: `(K, seq 5, tombstone)` followed by the
older `(K, seq 3, "v")` for the same key `K = [7]`; the tombstone's value
pointer is invalid. -/
def RAW_TOMBPAIR : List Nat :=
  mkTable (ScTableCatalogItem.serialize (ScTableCatalogItem.mk 5 0 1 2147483649 5) ++
           ScTableCatalogItem.serialize (ScTableCatalogItem.mk 3 0 1 1 1)) [7, 118]

/-- The parsed form of `RAW_TOMBPAIR`. -/
def tombPairCache : ScTableCache :=
  ScTableCache.mk
    [ScTableCatalogItem.mk 5 0 1 2147483649 5, ScTableCatalogItem.mk 3 0 1 1 1] [7, 118]

theorem decodeAux_length (kv : List Nat) (dlen : Nat) :
    ∀ count base items, decodeCatalogAux kv dlen base count = some items →
      items.length = count := by
  intro count
  induction count with
  | zero =>
    intro base items h
    simp only [decodeCatalogAux] at h
    cases h
    rfl
  | succ n ih =>
    intro base items h
    simp only [decodeCatalogAux] at h
    split at h
    · rcases Option.map_eq_some'.mp h with ⟨rest, hrest, hitems⟩
      subst hitems
      simp [ih _ _ hrest]
    · split at h
      · cases h
      · rcases Option.map_eq_some'.mp h with ⟨rest, hrest, hitems⟩
        subst hitems
        simp [ih _ _ hrest]

theorem decodeAux_mem_bounds (kv : List Nat) (dlen : Nat) :
    ∀ count base items, decodeCatalogAux kv dlen base count = some items →
    ∀ it ∈ items, deletionBitSet it.value_off = false →
      (it.key_off + it.key_len) % 4294967296 ≤ dlen ∧
      (it.value_off + it.value_len) % 4294967296 ≤ dlen := by
  intro count
  induction count with
  | zero =>
    intro base items h it hmem
    simp only [decodeCatalogAux] at h
    cases h
    simp at hmem
  | succ n ih =>
    intro base items h it hmem hnt
    simp only [decodeCatalogAux] at h
    split at h
    · rcases Option.map_eq_some'.mp h with ⟨rest, hrest, hitems⟩
      subst hitems
      rcases List.mem_cons.mp hmem with heq | hmem2
      · subst heq
        rename_i htomb
        rw [hnt] at htomb
        cases htomb
      · exact ih _ _ hrest it hmem2 hnt
    · split at h
      · cases h
      · rcases Option.map_eq_some'.mp h with ⟨rest, hrest, hitems⟩
        subst hitems
        rcases List.mem_cons.mp hmem with heq | hmem2
        · subst heq
          rename_i hrange
          push_neg at hrange
          exact hrange
        · exact ih _ _ hrest it hmem2 hnt

theorem decodeAux_getD (kv : List Nat) (dlen : Nat) :
    ∀ count base items, decodeCatalogAux kv dlen base count = some items →
    ∀ j, j < count →
      items.getD j default = entryAt kv (base + TABLE_CATALOG_ITEM_SIZE * j) := by
  intro count
  induction count with
  | zero =>
    intro base items h j hj
    exact absurd hj (Nat.not_lt_zero j)
  | succ n ih =>
    intro base items h j hj
    simp only [decodeCatalogAux] at h
    have step : ∀ rest, decodeCatalogAux kv dlen (base + TABLE_CATALOG_ITEM_SIZE) n = some rest →
        items = entryAt kv base :: rest →
        items.getD j default = entryAt kv (base + TABLE_CATALOG_ITEM_SIZE * j) := by
      intro rest hrest hitems
      subst hitems
      cases j with
      | zero => simp [List.getD]
      | succ m =>
        have hm : m < n := Nat.lt_of_succ_lt_succ hj
        have := ih _ _ hrest m hm
        simp only [List.getD_cons_succ]
        rw [this]
        congr 1
        ring
    split at h
    · rcases Option.map_eq_some'.mp h with ⟨rest, hrest, hitems⟩
      exact step rest hrest hitems.symm
    · split at h
      · cases h
      · rcases Option.map_eq_some'.mp h with ⟨rest, hrest, hitems⟩
        exact step rest hrest hitems.symm

theorem from_raw_ok_spec (raw : List Nat) (t : ScTableCache)
    (h : ScTableCache.from_raw raw = Except.ok t) :
    ¬corruptTooSmall raw ∧ ¬corruptTooLarge raw ∧ ¬corruptBadMagic raw ∧
    ¬corruptMisaligned raw ∧ ¬corruptBadSize raw ∧ ¬corruptCatalogCrc raw ∧
    ¬corruptDataCrc raw ∧
    decodeCatalogAux (catalogSeg raw) (dataSeg raw).length 0
      (decode_fixed32 (raw.take 4) / TABLE_CATALOG_ITEM_SIZE) = some t.catalog ∧
    t.data = dataSeg raw := by
  unfold ScTableCache.from_raw at h
  split at h
  · cases h
  next h1 =>
  split at h
  · cases h
  next h2 =>
  split at h
  · cases h
  next h3 =>
  split at h
  · cases h
  next h4 =>
  split at h
  · cases h
  next h5 =>
  split at h
  · cases h
  next h6 =>
  split at h
  · cases h
  next h7 =>
  split at h
  · cases h
  next catal hsome =>
  cases h
  exact ⟨h1, h2, h3, h4, h5, h6, h7, hsome, rfl⟩

theorem from_raw_ok_no_bad (raw : List Nat) (t : ScTableCache)
    (h : ScTableCache.from_raw raw = Except.ok t) : ¬corruptBadEntryWrapped raw := by
  obtain ⟨-, -, -, -, -, -, -, hsome, -⟩ := from_raw_ok_spec raw t h
  rintro ⟨i, hi, hbad⟩
  have hg := decodeAux_getD (catalogSeg raw) (dataSeg raw).length _ 0 _ hsome i hi
  rw [Nat.zero_add] at hg
  have hlen := decodeAux_length (catalogSeg raw) (dataSeg raw).length _ 0 _ hsome
  have hilt : i < t.catalog.length := by rw [hlen]; exact hi
  have hmem : t.catalog.getD i default ∈ t.catalog := by
    rw [List.getD_eq_getElem _ _ hilt]
    exact List.getElem_mem hilt
  have hnt : deletionBitSet (t.catalog.getD i default).value_off = false := by
    rw [hg]; exact hbad.1
  have hbounds := decodeAux_mem_bounds (catalogSeg raw) (dataSeg raw).length _ 0 _ hsome
    (t.catalog.getD i default) hmem hnt
  rw [hg] at hbounds
  rcases hbad.2 with hk | hv
  · exact absurd hbounds.1 (Nat.not_le_of_lt hk)
  · exact absurd hbounds.2 (Nat.not_le_of_lt hv)



theorem decode32_encode32 (x : Nat) (h : x < 4294967296) :
    decode_fixed32 (encode_fixed32_ret x) = x := by
  show x % 256 % 256 + x / 256 % 256 % 256 * 256 + x / 65536 % 256 % 256 * 65536 +
      x / 16777216 % 256 % 256 * 16777216 = x
  omega

theorem decode64_encode64 (x : Nat) (h : x < 18446744073709551616) :
    decode_fixed64 (encode_fixed64_ret x) = x := by
  show x % 256 % 256 + x / 256 % 256 % 256 * 256 + x / 65536 % 256 % 256 * 65536 +
      x / 16777216 % 256 % 256 * 16777216 + x / 4294967296 % 256 % 256 * 4294967296 +
      x / 1099511627776 % 256 % 256 * 1099511627776 +
      x / 281474976710656 % 256 % 256 * 281474976710656 +
      x / 72057594037927936 % 256 % 256 * 72057594037927936 = x
  omega

theorem semStep_sum (n : Nat) (s : SemState) (e : SemEvent) (h : s.avail + s.held = n) :
    (semStep s e).avail + (semStep s e).held = n := by
  cases e with
  | acq =>
    show (semAcquire s).avail + (semAcquire s).held = n
    unfold semAcquire
    split <;> simp <;> omega
  | rel =>
    show (if 0 < s.held then semRelease s else s).avail + (if 0 < s.held then semRelease s else s).held = n
    split
    · unfold semRelease
      split <;> simp <;> omega
    · exact h

theorem foldl_semStep_sum (n : Nat) :
    ∀ (evs : List SemEvent) (s : SemState), s.avail + s.held = n →
      (List.foldl semStep s evs).avail + (List.foldl semStep s evs).held = n
  | [], _, h => h
  | e :: evs, s, h => foldl_semStep_sum n evs (semStep s e) (semStep_sum n s e h)

theorem semRun_acq_all (a h : Nat) :
    ∀ m, m ≤ a →
      List.foldl semStep (SemState.mk a 0 h) (List.replicate m SemEvent.acq) =
        SemState.mk (a - m) 0 (h + m) := by
  intro m
  induction m generalizing a h with
  | zero => intro _; simp
  | succ k ih =>
    intro hma
    have ha : 0 < a := Nat.lt_of_lt_of_le (Nat.succ_pos k) hma
    have hstep : semStep (SemState.mk a 0 h) SemEvent.acq = SemState.mk (a - 1) 0 (h + 1) := by
      show semAcquire (SemState.mk a 0 h) = SemState.mk (a - 1) 0 (h + 1)
      unfold semAcquire
      rw [if_pos ha]
    rw [List.replicate_succ, List.foldl_cons, hstep, ih (a - 1) (h + 1) (by omega)]
    congr 1 <;> omega

theorem lruRemove_length_lt (m : List (Nat × Nat)) (k : Nat)
    (h : (lruLookup m k).isSome) : (lruRemove m k).length < m.length := by
  unfold lruLookup at h
  cases hfind : List.find? (fun p => p.1 == k) m with
  | none => rw [hfind] at h; simp at h
  | some p =>
    have hmem := List.mem_of_find?_eq_some hfind
    have hpk := List.find?_some hfind
    apply List.length_filter_lt_length_iff_exists.mpr
    exact ⟨p, hmem, by simp [bne, hpk]⟩

theorem dropRef_cap_lru (s : MgrState) (c : Nat) :
    (dropRef s c).cap = s.cap ∧ (dropRef s c).lru = s.lru := by
  unfold dropRef
  split <;> exact ⟨rfl, rfl⟩

theorem lruPut_length (cap : Nat) (m : List (Nat × Nat)) (k v : Nat)
    (hcap : 1 ≤ cap) (h : m.length ≤ cap) : (lruPut cap m k v).1.length ≤ cap := by
  unfold lruPut
  split
  next old hold =>
    have : (lruRemove m k).length < m.length :=
      lruRemove_length_lt m k (by rw [hold]; rfl)
    simp only [List.length_cons]
    omega
  next hnone =>
    split
    next hfull =>
      simp only [List.length_cons, List.length_dropLast]
      omega
    next hroom =>
      simp only [List.length_cons]
      omega

theorem mgrStep_cap (s : MgrState) (e : MgrEvent) : (mgrStep s e).cap = s.cap := by
  cases e with
  | acquire => rfl
  | add f c =>
    show (addCache s f c).cap = s.cap
    unfold addCache
    split
    · rfl
    · exact (dropRef_cap_lru _ _).1
  | getc f =>
    show ((getCache s f).2).cap = s.cap
    unfold getCache
    split <;> rfl
  | dropH c => exact (dropRef_cap_lru _ _).1

theorem mgrStep_lru_len (s : MgrState) (e : MgrEvent) (hcap : 1 ≤ s.cap)
    (h : s.lru.length ≤ s.cap) : (mgrStep s e).lru.length ≤ s.cap := by
  cases e with
  | acquire => exact h
  | add f c =>
    show (addCache s f c).lru.length ≤ s.cap
    unfold addCache
    split
    next m hput =>
      have hm : m = (lruPut s.cap s.lru f c).1 := by rw [hput]
      have := lruPut_length s.cap s.lru f c hcap h
      rw [hm]
      exact this
    next m old hput =>
      rw [(dropRef_cap_lru _ old).2]
      have hm : m = (lruPut s.cap s.lru f c).1 := by rw [hput]
      have := lruPut_length s.cap s.lru f c hcap h
      show m.length ≤ s.cap
      rw [hm]
      exact this
  | getc f =>
    show ((getCache s f).2).lru.length ≤ s.cap
    unfold getCache
    split
    next c hc =>
      have : (lruRemove s.lru f).length < s.lru.length :=
        lruRemove_length_lt s.lru f (by rw [hc]; rfl)
      simp only [List.length_cons]
      omega
    next => exact h
  | dropH c =>
    show (dropRef s c).lru.length ≤ s.cap
    rw [(dropRef_cap_lru s c).2]
    exact h

theorem foldl_mgrStep_len (n : Nat) (hn : 1 ≤ n) :
    ∀ (evs : List MgrEvent) (s : MgrState), s.cap = n → s.lru.length ≤ n →
      (List.foldl mgrStep s evs).lru.length ≤ n
  | [], _, _, h => h
  | e :: evs, s, hcap, h =>
    foldl_mgrStep_len n hn evs (mgrStep s e)
      (by rw [mgrStep_cap]; exact hcap)
      (by
        have := mgrStep_lru_len s e (by rw [hcap]; exact hn) (by rw [hcap]; exact h)
        rw [hcap] at this
        exact this)

theorem crcTable_spec : crcTable = (List.range 256).map (fun i => crcRounds 8 i) := by decide

theorem lruLookup_none_not_mem (m : List (Nat × Nat)) (k : Nat)
    (h : lruLookup m k = none) : ∀ p ∈ m, (p.1 == k) = false := by
  intro p hp
  unfold lruLookup at h
  have hfind : List.find? (fun p => p.1 == k) m = none := by
    cases hfind : List.find? (fun p => p.1 == k) m with
    | none => rfl
    | some q => rw [hfind] at h; simp at h
  have := List.find?_eq_none.mp hfind p hp
  simpa using this

theorem lruPut_shape (cap : Nat) (m : List (Nat × Nat)) (k v : Nat) :
    ∃ rest, (lruPut cap m k v).1 = (k, v) :: rest ∧ ∀ p ∈ rest, (p.1 == k) = false := by
  cases hfind : lruLookup m k with
  | some old =>
    refine ⟨lruRemove m k, ?_, ?_⟩
    · unfold lruPut
      rw [hfind]
    · intro p hp
      have hmf := List.mem_filter.mp hp
      simpa [bne] using hmf.2
  | none =>
    have hfree := lruLookup_none_not_mem m k hfind
    by_cases hfull : cap ≤ m.length
    · refine ⟨m.dropLast, ?_, fun p hp => hfree p (List.Sublist.mem hp (List.dropLast_sublist m))⟩
      unfold lruPut
      rw [hfind, if_pos hfull]
    · refine ⟨m, ?_, hfree⟩
      unfold lruPut
      rw [hfind, if_neg hfull]

theorem addCache_shape (s : MgrState) (f c : Nat) :
    ∃ rest, (addCache s f c).lru = (f, c) :: rest ∧ ∀ p ∈ rest, (p.1 == f) = false := by
  obtain ⟨rest, hput, hfree⟩ := lruPut_shape s.cap s.lru f c
  refine ⟨rest, ?_, hfree⟩
  unfold addCache
  split
  next m hm =>
    show m = (f, c) :: rest
    have hm1 : m = (lruPut s.cap s.lru f c).1 := by rw [hm]
    rw [hm1, hput]
  next m old hm =>
    rw [(dropRef_cap_lru _ old).2]
    show m = (f, c) :: rest
    have hm1 : m = (lruPut s.cap s.lru f c).1 := by rw [hm]
    rw [hm1, hput]

theorem lruLookup_cons_self (k v : Nat) (rest : List (Nat × Nat)) :
    lruLookup ((k, v) :: rest) k = some v := by
  unfold lruLookup
  rw [List.find?_cons_of_pos _ (by simp)]
  rfl

theorem filter_key_singleton (k v : Nat) (rest : List (Nat × Nat))
    (hfree : ∀ p ∈ rest, (p.1 == k) = false) :
    (((k, v) :: rest).filter (fun p => p.1 == k)).length = 1 := by
  rw [List.filter_cons_of_pos (by simp)]
  have hnil : rest.filter (fun p => p.1 == k) = [] :=
    List.filter_eq_nil_iff.mpr (fun p hp => by simp [hfree p hp])
  rw [hnil]
  rfl

theorem lruPut_evict (cap : Nat) (m : List (Nat × Nat)) (k v : Nat)
    (hfull : m.length = cap) (hmiss : lruLookup m k = none) :
    lruPut cap m k v = ((k, v) :: m.dropLast, Option.map Prod.snd m.getLast?) := by
  unfold lruPut
  rw [hmiss]
  rw [if_pos (by omega)]

theorem addCache_evict_lru (s : MgrState) (f c : Nat)
    (hcap : 1 ≤ s.cap) (hfull : s.lru.length = s.cap) (hmiss : lruLookup s.lru f = none) :
    (addCache s f c).lru = (f, c) :: s.lru.dropLast := by
  have hne : s.lru ≠ [] := List.length_pos.mp (by omega)
  obtain ⟨p, hp⟩ := Option.isSome_iff_exists.mp (List.getLast?_isSome.mpr hne)
  have hput := lruPut_evict s.cap s.lru f c hfull hmiss
  rw [hp] at hput
  unfold addCache
  rw [hput]
  exact (dropRef_cap_lru _ _).2

/-- Claim C1 (refuted — code bug): the spec says `get` finds any exactly
matching entry of a catalog sorted per the composite order and returns
its value bytes; but the source hands `binary_search_by` the comparison
`key.cmp(&lookup_key)` (search target versus probed element) where the
mirror image is required, so on the parsed, sorted two-entry table
`[(K1, seq 10, "a"), (K2, seq 7, "b")]` the exact-match lookup
`(K1, seq 10)` — present, non-tombstone, value `"a"` readable — returns
"not found". The spec's own three-entry example still returns `"b"`
because that target happens to sit at the first probe. The source marks
the closure "TODO this is buggy". -/
theorem claim1_lookup_code_bug :
    ScTableCache.from_raw RAW_PAIR = Except.ok pairCache ∧
    catalogSorted DefaultComparator.compare pairCache = true ∧
    pairCache.catalog.getD 0 default = ScTableCatalogItem.mk 10 0 1 1 1 ∧
    entryKeyOpt pairCache (ScTableCatalogItem.mk 10 0 1 1 1) = some (InternalKey.mk 10 [1]) ∧
    deletionBitSet (ScTableCatalogItem.mk 10 0 1 1 1).value_off = false ∧
    ScTableCache.value pairCache (ScTableCatalogItem.mk 10 0 1 1 1) = some [97] ∧
    ScTableCache.get DefaultComparator.compare pairCache (InternalKey.mk 10 [1]) = some none ∧
    ScTableCache.from_raw RAW_TRIPLE = Except.ok tripleCache ∧
    catalogSorted DefaultComparator.compare tripleCache = true ∧
    ScTableCache.get DefaultComparator.compare tripleCache (InternalKey.mk 7 [2]) = some (some [98]) :=
  ⟨rfl, rfl, rfl, rfl, rfl, rfl, rfl, rfl, rfl, rfl⟩

/-- Claim C2 (amended): every buffer exhibiting one of the corruption
cases — truncated, oversized, wrong trailer magic, misaligned catalog
size, inconsistent header sizes, catalog CRC mismatch, data CRC
mismatch, or a non-tombstone entry whose key/value range end (computed
with the u32 wrapping addition the code performs) exceeds the data
segment — makes `from_raw` return a corruption error; and a successful
parse is never partial: the catalog holds every entry of the
header-declared count and the data is the whole data segment. (The
amendment: the last case reads the range check with wrapping u32
arithmetic; with exact arithmetic it is refuted, see the
counterexample.) -/
theorem claim2_corruption_detected :
    (∀ raw : List Nat,
      corruptTooSmall raw ∨ corruptTooLarge raw ∨ corruptBadMagic raw ∨
      corruptMisaligned raw ∨ corruptBadSize raw ∨ corruptCatalogCrc raw ∨
      corruptDataCrc raw ∨ corruptBadEntryWrapped raw →
      ∃ msg, ScTableCache.from_raw raw = Except.error (Error.scTableCorrupt msg)) ∧
    (∀ (raw : List Nat) (t : ScTableCache), ScTableCache.from_raw raw = Except.ok t →
      t.catalog.length = decode_fixed32 (raw.take 4) / TABLE_CATALOG_ITEM_SIZE ∧
      t.data = dataSeg raw) := by
  constructor
  · intro raw hc
    cases hfr : ScTableCache.from_raw raw with
    | error e =>
      cases e with
      | scTableCorrupt msg => exact ⟨msg, rfl⟩
    | ok t =>
      obtain ⟨h1, h2, h3, h4, h5, h6, h7, -, -⟩ := from_raw_ok_spec raw t hfr
      have h8 := from_raw_ok_no_bad raw t hfr
      rcases hc with hc | hc | hc | hc | hc | hc | hc | hc
      · exact absurd hc h1
      · exact absurd hc h2
      · exact absurd hc h3
      · exact absurd hc h4
      · exact absurd hc h5
      · exact absurd hc h6
      · exact absurd hc h7
      · exact absurd hc h8
  · intro raw t hok
    obtain ⟨-, -, -, -, -, -, -, hsome, hdata⟩ := from_raw_ok_spec raw t hok
    exact ⟨decodeAux_length _ _ _ _ _ hsome, hdata⟩

/-- Claim C2 counterexample: the claim as stated (exact-arithmetic
ranges) is false — `RAW_WRAPKEY` holds a non-tombstone entry whose exact
key range end `4294967294 + 3` exceeds the one-byte data segment, yet
`from_raw` accepts the table because the u32 addition wraps to 1; the
accepted entry's key is not even sliceable. -/
theorem claim2_counterexample :
    ScTableCache.from_raw RAW_WRAPKEY = Except.ok wrapKeyCache ∧
    wrapKeyCache.catalog = [wrapKeyItem] ∧
    deletionBitSet wrapKeyItem.value_off = false ∧
    wrapKeyItem.key_off + wrapKeyItem.key_len > wrapKeyCache.data.length ∧
    ScTableCache.key wrapKeyCache wrapKeyItem = none :=
  ⟨rfl, rfl, rfl, by decide, rfl⟩

/-- Claim C2 witness: a concrete corrupt buffer (right size, wrong
trailer magic) is rejected with a corruption error. -/
theorem claim2_witness :
    ∃ msg, ScTableCache.from_raw RAW_BADMAGIC = Except.error (Error.scTableCorrupt msg) :=
  claim2_corruption_detected.1 RAW_BADMAGIC
    (Or.inr (Or.inr (Or.inl (by unfold corruptBadMagic; decide))))

/-- Claim C3 (confirmed): whenever `get`'s binary search matches a
catalog entry whose tombstone flag (high bit of `value_off`) is set,
`get` returns "not found" without touching the entry's value range; in
particular on the parsed table holding `(K, seq 5, tombstone)` and the
older `(K, seq 3, "v")`, `get (K, seq 5)` returns "not found" even
though the tombstone's value pointer denotes no valid range of the data
segment. -/
theorem claim3_tombstone_not_found :
    (∀ (comp : List Nat → List Nat → Ordering) (c : ScTableCache) (key : InternalKey) (idx : Nat),
      getSearch comp c key = some (Except.ok idx) →
      deletionBitSet (c.catalog.getD idx default).value_off = true →
      ScTableCache.get comp c key = some none) ∧
    ScTableCache.from_raw RAW_TOMBPAIR = Except.ok tombPairCache ∧
    ScTableCache.get DefaultComparator.compare tombPairCache (InternalKey.mk 5 [7]) = some none ∧
    ScTableCache.value tombPairCache (tombPairCache.catalog.getD 0 default) = none := by
  refine ⟨?_, rfl, rfl, rfl⟩
  intro comp c key idx hsearch htomb
  unfold ScTableCache.get
  rw [hsearch]
  show (if deletionBitSet (c.catalog.getD idx default).value_off = true then some none
    else Option.map some (c.value (c.catalog.getD idx default))) = some none
  rw [if_pos htomb]

/-- Claim C3 witness: on a single-entry table whose entry is a tombstone
with an invalid value pointer, the search matches the tombstone at index
0 and `get` returns "not found". -/
theorem claim3_witness :
    ScTableCache.get DefaultComparator.compare tombMatchCache (InternalKey.mk 5 [7]) = some none :=
  claim3_tombstone_not_found.1 DefaultComparator.compare tombMatchCache (InternalKey.mk 5 [7]) 0 rfl rfl

/-- Claim C4 (refuted — code bug): the claim says no accepted entry's
ranges are in-bounds only because the validation's u32 addition wraps;
but `RAW_WRAPVALUE` holds a non-tombstone entry whose exact value range
end `2147483647 + 2147483650` far exceeds the one-byte data segment,
wraps to 1 and passes the check, so `from_raw` accepts the table — and
`nth_item` then panics slicing the value. (In a debug build the u32
addition itself panics instead of wrapping.) -/
theorem claim4_wrapping_code_bug :
    ScTableCache.from_raw RAW_WRAPVALUE = Except.ok wrapValueCache ∧
    wrapValueCache.catalog = [wrapValueItem] ∧
    deletionBitSet wrapValueItem.value_off = false ∧
    wrapValueItem.value_off + wrapValueItem.value_len > wrapValueCache.data.length ∧
    (wrapValueItem.value_off + wrapValueItem.value_len) % 4294967296 ≤ wrapValueCache.data.length ∧
    wrapValueCache.nth_item 0 = none :=
  ⟨rfl, rfl, rfl, by decide, by decide, rfl⟩

/-- Claim C5 (amended): for a table accepted by `from_raw` and an index
`n < catalog_size` whose entry is not a tombstone and whose
offset-plus-length sums do not overflow u32, `nth_item n` returns that
entry's `(sequence, key bytes, value bytes)` without panicking — so a
scan reproduces exactly those entries in catalog order — and an index at
or beyond `catalog_size` is caught by the assertion. (The amendment
excludes tombstone entries, whose unvalidated value pointer makes the
value slice panic — see the counterexample — and entries accepted only
through u32 wrap-around.) -/
theorem claim5_nth_item_amended (raw : List Nat) (t : ScTableCache) (n : Nat)
    (hok : ScTableCache.from_raw raw = Except.ok t)
    (hn : n < t.catalog_size)
    (hnt : deletionBitSet (t.catalog.getD n default).value_off = false)
    (hkw : (t.catalog.getD n default).key_off + (t.catalog.getD n default).key_len < 4294967296)
    (hvw : (t.catalog.getD n default).value_off + (t.catalog.getD n default).value_len < 4294967296) :
    t.nth_item n = some ((t.catalog.getD n default).key_seq,
      (t.data.drop (t.catalog.getD n default).key_off).take (t.catalog.getD n default).key_len,
      (t.data.drop (t.catalog.getD n default).value_off).take (t.catalog.getD n default).value_len) ∧
    (∀ m, t.catalog_size ≤ m → t.nth_item m = none) := by
  obtain ⟨-, -, -, -, -, -, -, hsome, hdata⟩ := from_raw_ok_spec raw t hok
  have hnl : n < t.catalog.length := hn
  have hmem : t.catalog.getD n default ∈ t.catalog := by
    rw [List.getD_eq_getElem _ _ hnl]
    exact List.getElem_mem hnl
  have hbounds := decodeAux_mem_bounds _ _ _ _ _ hsome (t.catalog.getD n default) hmem hnt
  rw [Nat.mod_eq_of_lt hkw, Nat.mod_eq_of_lt hvw] at hbounds
  have hdlen : (dataSeg raw).length = t.data.length := by rw [hdata]
  have hkey : ScTableCache.key t (t.catalog.getD n default) =
      some ((t.data.drop (t.catalog.getD n default).key_off).take (t.catalog.getD n default).key_len) := by
    unfold ScTableCache.key sliceOpt
    rw [Nat.mod_eq_of_lt hkw]
    rw [if_pos ⟨Nat.le_add_right _ _, by omega⟩]
    rw [Nat.add_sub_cancel_left]
  have hval : ScTableCache.value t (t.catalog.getD n default) =
      some ((t.data.drop (t.catalog.getD n default).value_off).take (t.catalog.getD n default).value_len) := by
    unfold ScTableCache.value sliceOpt
    rw [Nat.mod_eq_of_lt hvw]
    rw [if_pos ⟨Nat.le_add_right _ _, by omega⟩]
    rw [Nat.add_sub_cancel_left]
  constructor
  · unfold ScTableCache.nth_item
    rw [if_pos hn, hkey, hval]
  · intro m hm
    unfold ScTableCache.nth_item
    rw [if_neg (Nat.not_lt.mpr hm)]

/-- Claim C5 counterexample: the claim as stated (every entry, tombstones
included, is returned without panicking) is false — `RAW_TOMBONLY` is
accepted by `from_raw` and holds one tombstone entry, and `nth_item 0`
panics slicing the tombstone's value range. -/
theorem claim5_counterexample :
    ScTableCache.from_raw RAW_TOMBONLY = Except.ok tombOnlyCache ∧
    0 < tombOnlyCache.catalog_size ∧
    tombOnlyCache.nth_item 0 = none :=
  ⟨rfl, by decide, rfl⟩

/-- Claim C5 witness: on the accepted single-entry table `RAW_GOOD`,
`nth_item 0` returns the entry and `nth_item 5` hits the assertion. -/
theorem claim5_witness :
    goodCache.nth_item 0 = some (3, [10], [20]) ∧ goodCache.nth_item 5 = none := by
  have h := claim5_nth_item_amended RAW_GOOD goodCache 0 rfl (by decide) rfl (by decide) (by decide)
  exact ⟨h.1, h.2 5 (by decide)⟩

/-- Claim C6 (confirmed): deserializing the 24-byte serialized form of
any catalog entry (fields in u64/u32 range) returns the entry
field-for-field. -/
theorem claim6_roundtrip (e : ScTableCatalogItem)
    (hs : e.key_seq < 18446744073709551616) (hko : e.key_off < 4294967296)
    (hkl : e.key_len < 4294967296) (hvo : e.value_off < 4294967296)
    (hvl : e.value_len < 4294967296) :
    ScTableCatalogItem.deserialize e.serialize = e := by
  obtain ⟨s, ko, kl, vo, vl⟩ := e
  have hsplit : ScTableCatalogItem.deserialize
      (ScTableCatalogItem.serialize (ScTableCatalogItem.mk s ko kl vo vl)) =
      ScTableCatalogItem.mk (decode_fixed64 (encode_fixed64_ret s))
        (decode_fixed32 (encode_fixed32_ret ko)) (decode_fixed32 (encode_fixed32_ret kl))
        (decode_fixed32 (encode_fixed32_ret vo)) (decode_fixed32 (encode_fixed32_ret vl)) := rfl
  rw [hsplit, decode64_encode64 s hs, decode32_encode32 ko hko, decode32_encode32 kl hkl,
    decode32_encode32 vo hvo, decode32_encode32 vl hvl]

/-- Claim C6 witness: the round trip at a concrete entry. -/
theorem claim6_witness :
    ScTableCatalogItem.deserialize (ScTableCatalogItem.serialize (ScTableCatalogItem.mk 7 8 9 10 11)) =
      ScTableCatalogItem.mk 7 8 9 10 11 :=
  claim6_roundtrip (ScTableCatalogItem.mk 7 8 9 10 11) (by decide) (by decide) (by decide)
    (by decide) (by decide)

/-- Claim C7 (confirmed): for a manager of capacity `N ≥ 1`, the LRU map
never exceeds `N` entries over any event sequence; inserting a new
identity into a full map evicts exactly the least-recently-used (last)
entry; and dropping the last shared handle of a table releases its
permit back to the semaphore. -/
theorem claim7_lru_bound :
    (∀ (n : Nat) (evs : List MgrEvent), 1 ≤ n → (mgrRun n evs).lru.length ≤ n) ∧
    (∀ (s : MgrState) (f c : Nat), 1 ≤ s.cap → s.lru.length = s.cap → lruLookup s.lru f = none →
      (addCache s f c).lru = (f, c) :: s.lru.dropLast ∧
      lruPut s.cap s.lru f c = ((f, c) :: s.lru.dropLast, Option.map Prod.snd s.lru.getLast?)) ∧
    (∀ (s : MgrState) (c : Nat), refsGet s.refs c = 1 → 0 < s.sem.held →
      (dropRef s c).sem = semRelease s.sem) := by
  refine ⟨?_, ?_, ?_⟩
  · intro n evs hn
    exact foldl_mgrStep_len n hn evs (mgrInit n) rfl (by simp [mgrInit])
  · intro s f c hcap hfull hmiss
    exact ⟨addCache_evict_lru s f c hcap hfull hmiss,
           lruPut_evict s.cap s.lru f c hfull hmiss⟩
  · intro s c hone hheld
    unfold dropRef
    rw [hone]
    show (MgrState.mk s.cap s.lru (refsSet s.refs c 0)
      (if 0 < s.sem.held then semRelease s.sem else s.sem)).sem = semRelease s.sem
    rw [if_pos hheld]

/-- Claim C7 witness: concrete capacity-1 runs — two inserts stay within
the bound, a full-map insert evicts the resident entry, and dropping a
sole handle releases the semaphore. -/
theorem claim7_witness :
    (mgrRun 1 [MgrEvent.add 1 101, MgrEvent.add 2 102]).lru.length ≤ 1 ∧
    (addCache (MgrState.mk 1 [(1, 101)] [(101, 2)] (SemState.mk 0 0 1)) 2 102).lru =
      (2, 102) :: [(1, 101)].dropLast ∧
    (dropRef (MgrState.mk 1 [] [(101, 1)] (SemState.mk 0 0 1)) 101).sem =
      semRelease (SemState.mk 0 0 1) :=
  ⟨claim7_lru_bound.1 1 [MgrEvent.add 1 101, MgrEvent.add 2 102] (by decide),
   (claim7_lru_bound.2.1 (MgrState.mk 1 [(1, 101)] [(101, 2)] (SemState.mk 0 0 1)) 2 102
     (by decide) (by decide) rfl).1,
   claim7_lru_bound.2.2 (MgrState.mk 1 [] [(101, 1)] (SemState.mk 0 0 1)) 101 rfl (by decide)⟩

/-- Claim C8 (confirmed): with slot count `N`, at most `N` permits are
ever outstanding over any event sequence; `N` acquisitions from a fresh
manager consume every slot; an acquisition with no free slot blocks
(joins the waiting callers, leaving the held count unchanged); and a
release with waiters unblocks exactly one of them. -/
theorem claim8_admission_bound :
    (∀ (n : Nat) (evs : List SemEvent), (semRun n evs).held ≤ n) ∧
    (∀ n : Nat, semRun n (List.replicate n SemEvent.acq) = SemState.mk 0 0 n) ∧
    (∀ s : SemState, s.avail = 0 → semAcquire s = SemState.mk 0 (s.waiting + 1) s.held) ∧
    (∀ s : SemState, 0 < s.waiting → 0 < s.held →
      semRelease s = SemState.mk s.avail (s.waiting - 1) s.held) := by
  refine ⟨?_, ?_, ?_, ?_⟩
  · intro n evs
    have hsum := foldl_semStep_sum n evs (SemState.mk n 0 0) (by simp)
    show (List.foldl semStep (SemState.mk n 0 0) evs).held ≤ n
    omega
  · intro n
    have hall := semRun_acq_all n 0 n (Nat.le_refl n)
    unfold semRun
    rw [hall, Nat.sub_self, Nat.zero_add]
  · intro s h
    unfold semAcquire
    rw [if_neg (by omega), h]
  · intro s hw hh
    unfold semRelease
    rw [if_pos hw]

/-- Claim C8 witness: with two slots, a third acquisition leaves two
permits held and one caller waiting; the concrete blocking and waking
steps behave as the theorem states. -/
theorem claim8_witness :
    (semRun 2 [SemEvent.acq, SemEvent.acq, SemEvent.acq, SemEvent.rel]).held ≤ 2 ∧
    semRun 2 (List.replicate 2 SemEvent.acq) = SemState.mk 0 0 2 ∧
    semAcquire (SemState.mk 0 1 2) = SemState.mk 0 2 2 ∧
    semRelease (SemState.mk 0 1 2) = SemState.mk 0 0 2 :=
  ⟨claim8_admission_bound.1 2 [SemEvent.acq, SemEvent.acq, SemEvent.acq, SemEvent.rel],
   claim8_admission_bound.2.1 2,
   claim8_admission_bound.2.2.1 (SemState.mk 0 1 2) rfl,
   claim8_admission_bound.2.2.2 (SemState.mk 0 1 2) (by decide) (by decide)⟩

/-- Claim C9 (confirmed): re-adding an identity replaces its entry — after
`add_cache id t1; add_cache id t2` the LRU map holds exactly one binding
of `id` and `get_cache id` returns the handle of `t2`; a key never has
two resident tables. -/
theorem claim9_no_duplicate (s : MgrState) (f c1 c2 : Nat) :
    lruLookup (addCache (addCache s f c1) f c2).lru f = some c2 ∧
    ((addCache (addCache s f c1) f c2).lru.filter (fun p => p.1 == f)).length = 1 ∧
    (getCache (addCache (addCache s f c1) f c2) f).1 = some c2 := by
  obtain ⟨rest, hsh, hfree⟩ := addCache_shape (addCache s f c1) f c2
  refine ⟨?_, ?_, ?_⟩
  · rw [hsh]
    exact lruLookup_cons_self f c2 rest
  · rw [hsh]
    exact filter_key_singleton f c2 rest hfree
  · unfold getCache
    rw [hsh, lruLookup_cons_self f c2 rest]

/-- Claim C10 (confirmed): when `from_raw` fails, the by-value
`CacheQuota` argument is dropped on the error path, releasing its
admission slot — acquiring a slot and then failing a parse restores the
semaphore to its prior state, and the error is propagated. -/
theorem claim10_error_releases_quota (raw : List Nat) (s : SemState) (e : Error)
    (herr : ScTableCache.from_raw raw = Except.error e)
    (hw : s.waiting = 0) (ha : 0 < s.avail) :
    (parseWithQuota raw (semAcquire s)).1 = s ∧
    (parseWithQuota raw (semAcquire s)).2 = Except.error e := by
  obtain ⟨a, w, h⟩ := s
  have hw0 : w = 0 := hw
  subst hw0
  have ha0 : 0 < a := ha
  have hacq : semAcquire (SemState.mk a 0 h) = SemState.mk (a - 1) 0 (h + 1) := by
    unfold semAcquire
    rw [if_pos ha0]
  unfold parseWithQuota
  rw [herr, hacq]
  constructor
  · show (if 0 < (SemState.mk (a - 1) 0 (h + 1)).held then semRelease (SemState.mk (a - 1) 0 (h + 1))
      else SemState.mk (a - 1) 0 (h + 1)) = SemState.mk a 0 h
    rw [if_pos (Nat.succ_pos h)]
    unfold semRelease
    rw [if_neg (by simp)]
    show SemState.mk (a - 1 + 1) 0 (h + 1 - 1) = SemState.mk a 0 h
    have e1 : a - 1 + 1 = a := by omega
    have e2 : h + 1 - 1 = h := by omega
    rw [e1, e2]
  · rfl

/-- Claim C10 witness: the empty buffer fails the size check and the
acquired slot returns to a one-slot semaphore. -/
theorem claim10_witness :
    (parseWithQuota [] (semAcquire (SemState.mk 1 0 0))).1 = SemState.mk 1 0 0 ∧
    (parseWithQuota [] (semAcquire (SemState.mk 1 0 0))).2 =
      Except.error (Error.scTableCorrupt "too small to be a table file") :=
  claim10_error_releases_quota [] (SemState.mk 1 0 0)
    (Error.scTableCorrupt "too small to be a table file") rfl rfl (by decide)
